import Mathlib

/-!
Shallow embedding of the statistics-aggregation pipeline of the
belief-mirror dashboard (its `stats.js`): the functions `calculateStats`,
`calculateWinLossStats`, `calculateWinLossByCategory`,
`calculateWinLossByPriceRange`, `getHourDistribution` and
`getDayDistribution`, translated from the JavaScript source.

Modelling conventions:
* JavaScript numbers are modelled as exact rationals (`ℚ`); counts as `ℕ`;
  epoch timestamps as `ℤ` (seconds).
* A numeric field guarded in the source by `x || 0` (absent/undefined
  treated as 0) is modelled as `Option ℚ` read through `Option.getD 0`;
  likewise `title || ''` is `Option String` read through `Option.getD ""`.
* JavaScript plain objects used as insertion-ordered string-keyed maps are
  modelled as association lists `List (String × _)` in insertion order.
* Fields that the empty-input early return of `calculateWinLossStats`
  omits (they read as `undefined` in the source) are modelled as `Option`
  fields that are `none` exactly in that branch.
* The `Infinity` sentinel for `profitFactor` and the string markers of
  `buySellRatio` are modelled as tagged sum types.
-/

namespace BeliefMirror

/-- A closed (resolved) position record; only the fields the win/loss
pipeline reads. -/
structure ClosedPosition where
  realizedPnl : Option ℚ
  avgPrice : Option ℚ
  title : Option String
deriving DecidableEq

/-- The read `(p.realizedPnl || 0)` of the source. -/
def pnlD (p : ClosedPosition) : ℚ := p.realizedPnl.getD 0

/-- The shared shape of category and price-range buckets:
`{ wins, losses, totalPnl, count }`, with `winRate` filled in by the
second pass (the source leaves it undefined until then; the model carries
it as 0 until the pass overwrites it). -/
structure Bucket where
  wins : ℕ
  losses : ℕ
  totalPnl : ℚ
  count : ℕ
  winRate : ℚ
deriving DecidableEq

/-- The accumulation step the source applies to the bucket a position is
assigned to: `count++`, `totalPnl += pnl`, then `wins++` when `pnl > 0`
else `losses++` when `pnl < 0`. -/
def accPos (p : ClosedPosition) (b : Bucket) : Bucket :=
  { b with
    count := b.count + 1
    totalPnl := b.totalPnl + pnlD p
    wins := if 0 < pnlD p then b.wins + 1 else b.wins
    losses := if pnlD p < 0 then b.losses + 1 else b.losses }

/-- Second pass over a bucket:
`winRate = count > 0 ? (wins / count) * 100 : 0`. -/
def setWinRate (b : Bucket) : Bucket :=
  { b with winRate := if 0 < b.count then ((b.wins : ℚ) / (b.count : ℚ)) * 100 else 0 }

/-- The update `obj[key] = f(obj[key])` on an association list: apply `f` to every
entry whose key matches (a JavaScript object holds each key once). -/
def updateAt {β : Type} (m : List (String × β)) (key : String) (f : β → β) :
    List (String × β) :=
  m.map fun kv => if kv.1 = key then (kv.1, f kv.2) else kv

/-- ASCII-adequate model of `String.prototype.toLowerCase`. -/
def lowerStr (s : String) : String := String.mk (s.toList.map Char.toLower)

/-- Whether the first character list starts the second (Boolean). -/
def prefOf : List Char → List Char → Bool
  | [], _ => true
  | _ :: _, [] => false
  | a :: as, b :: bs => a = b && prefOf as bs

/-- The JavaScript substring test `hay.includes(needle)`, on character lists. -/
def subOf (needle : List Char) : List Char → Bool
  | [] => needle.isEmpty
  | c :: t => prefOf needle (c :: t) || subOf needle t

/-- The test `title.includes(word)` of the source. -/
def containsSub (hay word : String) : Bool := subOf word.toList hay.toList

/-- The keyword table of `calculateWinLossByCategory` (this copy's Sports
list lacks the `win`/`score` entries of the `categorizeMarkets` copy). -/
def winLossKeywords : List (String × List String) :=
  [("Politics", ["election", "president", "congress", "senate", "trump", "biden",
      "democrat", "republican", "vote", "governor", "mayor", "political", "impeach"]),
   ("Sports", ["nba", "nfl", "mlb", "world cup", "super bowl", "championship",
      "playoffs", "game", "team", "player", "match"]),
   ("Crypto", ["bitcoin", "ethereum", "btc", "eth", "crypto", "token", "coin",
      "defi", "nft", "blockchain"]),
   ("Economy", ["fed", "interest rate", "inflation", "gdp", "recession", "economy",
      "market", "stock", "treasury", "unemployment"]),
   ("Entertainment", ["oscar", "emmy", "movie", "film", "album", "spotify",
      "netflix", "celebrity", "award"]),
   ("Science", ["climate", "nasa", "space", "ai", "artificial intelligence",
      "scientific", "research", "temperature"])]

/-- Classify a closed-position title: lowercase it, scan the keyword table
in order, first category with a substring match wins, default `Other`. -/
def categoryOfTitle (title : String) : String :=
  let t := lowerStr title
  match winLossKeywords.find? (fun kw => kw.2.any (fun w => containsSub t w)) with
  | some kw => kw.1
  | none => "Other"

/-- One iteration of the `closedPositions.forEach` loop of
`calculateWinLossByCategory`: lazily create the category's bucket, then
accumulate the position into it. -/
def stepCat (m : List (String × Bucket)) (p : ClosedPosition) :
    List (String × Bucket) :=
  let cat := categoryOfTitle (p.title.getD (""))
  let m2 := if m.any (fun kv => decide (kv.1 = cat)) then m
            else m ++ [(cat, ⟨0, 0, 0, 0, 0⟩)]
  updateAt m2 cat (accPos p)

/-- Function `calculateWinLossByCategory` of the source: accumulate over the
lazily-created category buckets, then the win-rate second pass. -/
def calculateWinLossByCategory (closedPositions : List ClosedPosition) :
    List (String × Bucket) :=
  (closedPositions.foldl stepCat []).map fun kv => (kv.1, setWinRate kv.2)

/-- The bucket-assignment chain of `calculateWinLossByPriceRange`
(`avgPrice <= 0.20`, `<= 0.40`, `<= 0.60`, `<= 0.80`, else top band). -/
def priceRangeLabel (avgPrice : ℚ) : String :=
  if avgPrice ≤ 0.20 then ("Longshots (0-20¢)")
  else if avgPrice ≤ 0.40 then ("Underdogs (20-40¢)")
  else if avgPrice ≤ 0.60 then ("Toss-ups (40-60¢)")
  else if avgPrice ≤ 0.80 then ("Favorites (60-80¢)")
  else ("Heavy Favorites (80-100¢)")

/-- The pre-seeded `ranges` object of `calculateWinLossByPriceRange`. -/
def initRanges : List (String × Bucket) :=
  [("Longshots (0-20¢)", ⟨0, 0, 0, 0, 0⟩),
   ("Underdogs (20-40¢)", ⟨0, 0, 0, 0, 0⟩),
   ("Toss-ups (40-60¢)", ⟨0, 0, 0, 0, 0⟩),
   ("Favorites (60-80¢)", ⟨0, 0, 0, 0, 0⟩),
   ("Heavy Favorites (80-100¢)", ⟨0, 0, 0, 0, 0⟩)]

/-- One iteration of the `forEach` loop of `calculateWinLossByPriceRange`. -/
def stepRange (m : List (String × Bucket)) (p : ClosedPosition) :
    List (String × Bucket) :=
  updateAt m (priceRangeLabel (p.avgPrice.getD 0)) (accPos p)

/-- Function `calculateWinLossByPriceRange` of the source. -/
def calculateWinLossByPriceRange (closedPositions : List ClosedPosition) :
    List (String × Bucket) :=
  (closedPositions.foldl stepRange initRanges).map fun kv => (kv.1, setWinRate kv.2)

/-- The `profitFactor` value: a finite number or the `Infinity` sentinel. -/
inductive ProfitFactor where
  | finite (q : ℚ)
  | infinite
deriving DecidableEq

/-- The `wins` filter of `calculateWinLossStats`: `(p.realizedPnl || 0) > 0`. -/
def winsOf (closedPositions : List ClosedPosition) : List ClosedPosition :=
  closedPositions.filter fun p => decide (0 < pnlD p)

/-- The `losses` filter: `(p.realizedPnl || 0) < 0`. -/
def lossesOf (closedPositions : List ClosedPosition) : List ClosedPosition :=
  closedPositions.filter fun p => decide (pnlD p < 0)

/-- The `breakeven` filter: `(p.realizedPnl || 0) === 0`. -/
def breakevenOf (closedPositions : List ClosedPosition) : List ClosedPosition :=
  closedPositions.filter fun p => decide (pnlD p = 0)

/-- The sum `list.reduce((sum, p) => sum + (p.realizedPnl || 0), 0)`. -/
def sumPnl (l : List ClosedPosition) : ℚ :=
  l.foldl (fun s p => s + pnlD p) 0

/-- The amount `totalWinAmount = wins.reduce(..., 0)`. -/
def totalWinAmountOf (closedPositions : List ClosedPosition) : ℚ :=
  sumPnl (winsOf closedPositions)

/-- The amount `totalLossAmount = Math.abs(losses.reduce(..., 0))`. -/
def totalLossAmountOf (closedPositions : List ClosedPosition) : ℚ :=
  |sumPnl (lossesOf closedPositions)|

/-- The value `profitFactor = totalLossAmount > 0 ? totalWinAmount / totalLossAmount
: totalWinAmount > 0 ? Infinity : 0`. -/
def profitFactorOf (closedPositions : List ClosedPosition) : ProfitFactor :=
  if 0 < totalLossAmountOf closedPositions then
    .finite (totalWinAmountOf closedPositions / totalLossAmountOf closedPositions)
  else if 0 < totalWinAmountOf closedPositions then .infinite
  else .finite 0

/-- The value `biggestWin = wins.length > 0 ? wins.reduce((max, p) => pnl p > pnl max
? p : max, wins[0]) : null`; with an explicit initial value the JavaScript
`reduce` still visits every element, index 0 included. -/
def biggestWinOf (closedPositions : List ClosedPosition) : Option ClosedPosition :=
  match winsOf closedPositions with
  | [] => none
  | w0 :: _ =>
    some ((winsOf closedPositions).foldl
      (fun mx p => if pnlD mx < pnlD p then p else mx) w0)

/-- The value `biggestLoss = losses.length > 0 ? losses.reduce((min, p) => pnl p <
pnl min ? p : min, losses[0]) : null`. -/
def biggestLossOf (closedPositions : List ClosedPosition) : Option ClosedPosition :=
  match lossesOf closedPositions with
  | [] => none
  | l0 :: _ =>
    some ((lossesOf closedPositions).foldl
      (fun mn p => if pnlD p < pnlD mn then p else mn) l0)

/-- The record `calculateWinLossStats` returns.  `Option`-typed fields are
the ones the empty-input early return omits (undefined in the source). -/
structure WinLossStats where
  totalResolved : ℕ
  wins : ℕ
  losses : ℕ
  breakeven : Option ℕ
  winRate : ℚ
  totalRealizedPnL : ℚ
  totalWinAmount : Option ℚ
  totalLossAmount : Option ℚ
  avgWinAmount : ℚ
  avgLossAmount : ℚ
  biggestWin : Option ClosedPosition
  biggestLoss : Option ClosedPosition
  profitFactor : ProfitFactor
  expectancy : Option ℚ
  winLossByCategory : List (String × Bucket)
  winLossByPriceRange : List (String × Bucket)
  closedPositions : Option (List ClosedPosition)
deriving DecidableEq

/-- The zeroed/neutral record of the `!closedPositions ||
closedPositions.length === 0` early return; note both bucket maps are the
empty object there. -/
def emptyWinLossStats : WinLossStats :=
  { totalResolved := 0, wins := 0, losses := 0, breakeven := none
    winRate := 0, totalRealizedPnL := 0
    totalWinAmount := none, totalLossAmount := none
    avgWinAmount := 0, avgLossAmount := 0
    biggestWin := none, biggestLoss := none
    profitFactor := .finite 0, expectancy := none
    winLossByCategory := [], winLossByPriceRange := []
    closedPositions := none }

/-- Function `calculateWinLossStats` of the source; the argument is `Option`-typed
because the source also accepts an absent (`null`/`undefined`) array. -/
def calculateWinLossStats (closedPositions : Option (List ClosedPosition)) :
    WinLossStats :=
  match closedPositions with
  | none => emptyWinLossStats
  | some cps =>
    if cps.length = 0 then emptyWinLossStats
    else
      { totalResolved := cps.length
        wins := (winsOf cps).length
        losses := (lossesOf cps).length
        breakeven := some (breakevenOf cps).length
        winRate := if 0 < cps.length then
            (((winsOf cps).length : ℚ) / (cps.length : ℚ)) * 100 else 0
        totalRealizedPnL := sumPnl cps
        totalWinAmount := some (totalWinAmountOf cps)
        totalLossAmount := some (totalLossAmountOf cps)
        avgWinAmount := if 0 < (winsOf cps).length then
            totalWinAmountOf cps / ((winsOf cps).length : ℚ) else 0
        avgLossAmount := if 0 < (lossesOf cps).length then
            totalLossAmountOf cps / ((lossesOf cps).length : ℚ) else 0
        biggestWin := biggestWinOf cps
        biggestLoss := biggestLossOf cps
        profitFactor := profitFactorOf cps
        expectancy := some (if 0 < cps.length then sumPnl cps / (cps.length : ℚ) else 0)
        winLossByCategory := calculateWinLossByCategory cps
        winLossByPriceRange := calculateWinLossByPriceRange cps
        closedPositions := some cps }

/-- An activity record; only the fields the embedded parts of
`calculateStats` read (`type`, `side`, `timestamp`, `usdcSize`, `price`,
`conditionId`, `title`). -/
structure TradeRecord where
  type : String
  side : String
  timestamp : ℤ
  usdcSize : Option ℚ
  price : ℚ
  conditionId : String
  title : Option String
deriving DecidableEq

/-- Increment slot `i` of a fixed-length counter list (`hours[hour]++`). -/
def bumpAt : List ℕ → ℕ → List ℕ
  | [], _ => []
  | x :: xs, 0 => (x + 1) :: xs
  | x :: xs, n + 1 => x :: bumpAt xs n

/-- The hour `new Date(ts * 1000).getUTCHours()` for an epoch-second timestamp:
floor-divide to hours since the epoch, reduce mod 24 (non-negative). -/
def hourOfTs (ts : ℤ) : ℕ := ((ts.fdiv 3600).emod 24).toNat

/-- Function `getHourDistribution` of the source: 24 zero-initialised counters,
one increment per trade at its UTC hour. -/
def getHourDistribution (trades : List TradeRecord) : List ℕ :=
  trades.foldl (fun hours t => bumpAt hours (hourOfTs t.timestamp))
    (List.replicate 24 0)

/-- The `dayNames` table of `getDayDistribution`. -/
def dayNames : List String :=
  ["Sunday", "Monday", "Tuesday", "Wednesday", "Thursday", "Friday", "Saturday"]

/-- The weekday `new Date(ts * 1000).getUTCDay()`: days since the epoch (floor), offset
by 4 because 1970-01-01 was a Thursday, reduced mod 7. -/
def dayOfTs (ts : ℤ) : ℕ := ((ts.fdiv 86400 + 4).emod 7).toNat

/-- Function `getDayDistribution` of the source: the seven weekday keys seeded at 0,
`days[dayNames[day]]++` per trade. -/
def getDayDistribution (trades : List TradeRecord) : List (String × ℕ) :=
  trades.foldl
    (fun days t => updateAt days (dayNames.getD (dayOfTs t.timestamp) "") (· + 1))
    (dayNames.map fun n => (n, 0))

/-- The `buySellRatio` value of `calculateStats`: the source produces
`(buys / sells).toFixed(2)` when `sells > 0`, the string `'∞'` when only
buys exist, and `'-'` when neither side has trades.  The finite case
carries the exact quotient that the source formats to two decimals. -/
inductive RatioMark where
  | finite (q : ℚ)
  | infiniteMark
  | dashMark
deriving DecidableEq

/-- The fields of the `calculateStats` result that the verified properties
concern; the remaining fields of the source record (volumes, averages,
calendar-string metrics, monthly series, open-position aggregates and the
spread-in win/loss block) are carried by the dedicated definitions above
and are not duplicated here. -/
structure Stats where
  totalTrades : ℕ
  buys : ℕ
  sells : ℕ
  buySellRatioVal : RatioMark
  hourDistribution : List ℕ
  dayDistribution : List (String × ℕ)
deriving DecidableEq

/-- The trade-count, buy/sell and temporal-distribution computations of
`calculateStats`: re-filter `activity` to `type === 'TRADE'`, count sides,
form the ratio with its two guarded markers, and delegate to the two
distribution helpers. -/
def calculateStats (activity : List TradeRecord) : Stats :=
  let trades := activity.filter fun a => decide (a.type = "TRADE")
  let buys := (trades.filter fun t => decide (t.side = "BUY")).length
  let sells := (trades.filter fun t => decide (t.side = "SELL")).length
  { totalTrades := trades.length
    buys := buys
    sells := sells
    buySellRatioVal :=
      if 0 < sells then .finite ((buys : ℚ) / (sells : ℚ))
      else if 0 < buys then .infiniteMark
      else .dashMark
    hourDistribution := getHourDistribution trades
    dayDistribution := getDayDistribution trades }

/-- Combine a candidate with the best of the positions after it, preferring
the later one only on a strictly larger `realizedPnl` (so ties go to the
earlier position). -/
def combineW (a : ClosedPosition) (r : Option ClosedPosition) : Option ClosedPosition :=
  match r with
  | none => some a
  | some q => if pnlD a < pnlD q then some q else some a

/-- Spec-side definition, from the specification's words: the position
with maximal `realizedPnl`, ties resolved to the first in input order,
`none` on the empty list. -/
def specBiggestWin : List ClosedPosition → Option ClosedPosition
  | [] => none
  | p :: l => combineW p (specBiggestWin l)

/-- Combine a candidate with the best of the positions after it, preferring
the later one only on a strictly smaller `realizedPnl`. -/
def combineL (a : ClosedPosition) (r : Option ClosedPosition) : Option ClosedPosition :=
  match r with
  | none => some a
  | some q => if pnlD q < pnlD a then some q else some a

/-- Spec-side definition, from the specification's words: the position
with minimal `realizedPnl`, ties resolved to the first in input order,
`none` on the empty list. -/
def specBiggestLoss : List ClosedPosition → Option ClosedPosition
  | [] => none
  | p :: l => combineL p (specBiggestLoss l)

/-!  ## General lemmas about the embedded operations -/

theorem foldl_add_pnl (l : List ClosedPosition) (a : ℚ) :
    l.foldl (fun s p => s + pnlD p) a = a + (l.map pnlD).sum := by
  induction l generalizing a with
  | nil => simp
  | cons p t ih => simp [List.foldl_cons, ih, add_assoc]

theorem sumPnl_eq_sum_map (l : List ClosedPosition) :
    sumPnl l = (l.map pnlD).sum := by
  simp [sumPnl, foldl_add_pnl]

theorem mem_winsOf {cps : List ClosedPosition} {p : ClosedPosition}
    (h : p ∈ winsOf cps) : 0 < pnlD p := by
  simpa using (List.mem_filter.mp h).2

theorem mem_lossesOf {cps : List ClosedPosition} {p : ClosedPosition}
    (h : p ∈ lossesOf cps) : pnlD p < 0 := by
  simpa using (List.mem_filter.mp h).2

theorem totalWinAmountOf_nonneg (cps : List ClosedPosition) :
    0 ≤ totalWinAmountOf cps := by
  rw [totalWinAmountOf, sumPnl_eq_sum_map]
  refine List.sum_nonneg fun x hx => ?_
  rcases List.mem_map.mp hx with ⟨p, hp, rfl⟩
  exact le_of_lt (mem_winsOf hp)

theorem totalLossAmountOf_nonneg (cps : List ClosedPosition) :
    0 ≤ totalLossAmountOf cps := abs_nonneg _

/-- The three strict-sign filters partition the list, so their lengths
sum to the input length. -/
theorem partition_lengths (cps : List ClosedPosition) :
    (winsOf cps).length + (lossesOf cps).length + (breakevenOf cps).length
      = cps.length := by
  induction cps with
  | nil => rfl
  | cons p t ih =>
    rcases lt_trichotomy (pnlD p) 0 with h | h | h
    · simp [winsOf, lossesOf, breakevenOf, List.filter_cons, h, lt_asymm h,
        h.ne] at ih ⊢
      omega
    · simp [winsOf, lossesOf, breakevenOf, List.filter_cons, h] at ih ⊢
      omega
    · simp [winsOf, lossesOf, breakevenOf, List.filter_cons, h, lt_asymm h,
        h.ne'] at ih ⊢
      omega

theorem updateAt_keys {β : Type} (m : List (String × β)) (k : String) (f : β → β) :
    (updateAt m k f).map Prod.fst = m.map Prod.fst := by
  induction m with
  | nil => rfl
  | cons kv t ih =>
    by_cases h : kv.1 = k <;> simp [updateAt, h, List.map_cons] at ih ⊢ <;>
      simpa using ih

/-- Updating one key through a strictly-incrementing accumulator raises the
total of the tracked counter by the key's multiplicity. -/
theorem updateAt_sum {β : Type} (g : β → ℕ) (f : β → β)
    (hf : ∀ b, g (f b) = g b + 1) (m : List (String × β)) (k : String) :
    ((updateAt m k f).map fun kv => g kv.2).sum
      = ((m.map fun kv => g kv.2).sum) + (m.map Prod.fst).count k := by
  induction m with
  | nil => rfl
  | cons kv t ih =>
    by_cases h : kv.1 = k <;>
      simp [updateAt, h, List.map_cons, List.count_cons, hf] at ih ⊢ <;>
      omega

/-- Unfolding of `calculateWinLossStats` on a non-empty array (the early
return is not taken). -/
theorem wls_spec (cps : List ClosedPosition) (h : cps ≠ []) :
    calculateWinLossStats (some cps) =
      { totalResolved := cps.length
        wins := (winsOf cps).length
        losses := (lossesOf cps).length
        breakeven := some (breakevenOf cps).length
        winRate := if 0 < cps.length then
            (((winsOf cps).length : ℚ) / (cps.length : ℚ)) * 100 else 0
        totalRealizedPnL := sumPnl cps
        totalWinAmount := some (totalWinAmountOf cps)
        totalLossAmount := some (totalLossAmountOf cps)
        avgWinAmount := if 0 < (winsOf cps).length then
            totalWinAmountOf cps / ((winsOf cps).length : ℚ) else 0
        avgLossAmount := if 0 < (lossesOf cps).length then
            totalLossAmountOf cps / ((lossesOf cps).length : ℚ) else 0
        biggestWin := biggestWinOf cps
        biggestLoss := biggestLossOf cps
        profitFactor := profitFactorOf cps
        expectancy := some (if 0 < cps.length then sumPnl cps / (cps.length : ℚ) else 0)
        winLossByCategory := calculateWinLossByCategory cps
        winLossByPriceRange := calculateWinLossByPriceRange cps
        closedPositions := some cps } := by
  simp only [calculateWinLossStats]
  rw [if_neg fun hh => h (List.length_eq_zero.mp hh)]

/-!  ## Claim C1 -/

/-- C1 (counterexample): contrary to the claim, the empty-input early
return of `calculateWinLossStats` does not pre-seed the price-range bucket
map with the five fixed buckets — it returns the empty object, so the
"Longshots (0-20¢)" bucket (like the other four) is absent. -/
theorem c1_empty_priceRange_not_seeded :
    (calculateWinLossStats (some [])).winLossByPriceRange = [] ∧
    (calculateWinLossStats (some [])).winLossByPriceRange.lookup ("Longshots (0-20¢)")
      = none ∧
    ¬ ((calculateWinLossStats (some [])).winLossByPriceRange.length = 5) := by
  norm_num [calculateWinLossStats, emptyWinLossStats]

/-- C1 (amended): on an empty (or absent) `closedPositions` array,
`calculateWinLossStats` returns the zeroed/neutral structure — all present
win/loss scalar fields zero, `biggestWin`/`biggestLoss` both `null`, and
BOTH bucket maps empty (the price-range map is not pre-seeded in this
short-circuit case; pre-seeding happens only on a non-empty array). -/
theorem c1_empty_input_amended :
    (calculateWinLossStats (some [])).totalResolved = 0 ∧
    (calculateWinLossStats (some [])).wins = 0 ∧
    (calculateWinLossStats (some [])).losses = 0 ∧
    (calculateWinLossStats (some [])).winRate = 0 ∧
    (calculateWinLossStats (some [])).totalRealizedPnL = 0 ∧
    (calculateWinLossStats (some [])).avgWinAmount = 0 ∧
    (calculateWinLossStats (some [])).avgLossAmount = 0 ∧
    (calculateWinLossStats (some [])).biggestWin = none ∧
    (calculateWinLossStats (some [])).biggestLoss = none ∧
    (calculateWinLossStats (some [])).profitFactor = .finite 0 ∧
    (calculateWinLossStats (some [])).winLossByCategory = [] ∧
    (calculateWinLossStats (some [])).winLossByPriceRange = [] ∧
    calculateWinLossStats none = calculateWinLossStats (some []) := by
  norm_num [calculateWinLossStats, emptyWinLossStats]

/-!  ## Claim C6 -/

/-- C6: the two-position scenario of the specification, checked by
evaluation: `totalResolved = 2`, `wins = 1`, `losses = 1`, `winRate = 50`,
`totalRealizedPnL = 30`, `profitFactor = 2.5`, the 0-20¢ bucket holding
the +50 win, the 60-80¢ bucket holding the -20 loss, all other price
buckets empty. -/
theorem c6_two_position_scenario :
    (calculateWinLossStats (some
        [⟨some 50, some 0.15, some ("Will BTC hit 100k")⟩,
         ⟨some (-20), some 0.70, some ("NBA Finals Winner")⟩])) =
      { totalResolved := 2, wins := 1, losses := 1, breakeven := some 0
        winRate := 50, totalRealizedPnL := 30
        totalWinAmount := some 50, totalLossAmount := some 20
        avgWinAmount := 50, avgLossAmount := 20
        biggestWin := some ⟨some 50, some 0.15, some ("Will BTC hit 100k")⟩
        biggestLoss := some ⟨some (-20), some 0.70, some ("NBA Finals Winner")⟩
        profitFactor := .finite 2.5
        expectancy := some 15
        winLossByCategory :=
          [("Crypto", ⟨1, 0, 50, 1, 100⟩), ("Sports", ⟨0, 1, -20, 1, 0⟩)]
        winLossByPriceRange :=
          [("Longshots (0-20¢)", ⟨1, 0, 50, 1, 100⟩),
           ("Underdogs (20-40¢)", ⟨0, 0, 0, 0, 0⟩),
           ("Toss-ups (40-60¢)", ⟨0, 0, 0, 0, 0⟩),
           ("Favorites (60-80¢)", ⟨0, 1, -20, 1, 0⟩),
           ("Heavy Favorites (80-100¢)", ⟨0, 0, 0, 0, 0⟩)]
        closedPositions := some
          [⟨some 50, some 0.15, some ("Will BTC hit 100k")⟩,
           ⟨some (-20), some 0.70, some ("NBA Finals Winner")⟩] } := by
  have h1 : categoryOfTitle ("Will BTC hit 100k") = "Crypto" := by decide
  have h2 : categoryOfTitle ("NBA Finals Winner") = "Sports" := by decide
  norm_num [calculateWinLossStats, profitFactorOf, totalLossAmountOf, totalWinAmountOf,
    sumPnl, winsOf, lossesOf, breakevenOf, pnlD, biggestWinOf, biggestLossOf,
    calculateWinLossByCategory, calculateWinLossByPriceRange, stepCat, stepRange,
    updateAt, accPos, setWinRate, initRanges, priceRangeLabel, h1, h2,
    List.filter, List.foldl]
  simp

/-!  ## Counterexamples to C2 and C3 -/

/-- C2 (counterexample): a single losing position has `winRate = 0` while
`totalResolved = 1`, so "winRate equals 0 exactly when totalResolved
equals 0" fails in the only-if direction. -/
theorem c2_winRate_zero_with_resolved :
    ¬ ((calculateWinLossStats (some [⟨some (-20), none, none⟩])).winRate = 0 ↔
       (calculateWinLossStats (some [⟨some (-20), none, none⟩])).totalResolved = 0) := by
  norm_num [calculateWinLossStats, winsOf, pnlD, List.filter]

/-- C3 (counterexample): a single losing position yields
`profitFactor = 0 / 20 = 0` while `totalLossAmount = 20 ≠ 0`, so
"profitFactor is 0 iff totalWinAmount and totalLossAmount are both 0"
fails in the only-if direction. -/
theorem c3_profitFactor_zero_with_losses :
    (calculateWinLossStats (some [⟨some (-20), none, none⟩])).profitFactor
      = .finite 0 ∧
    (calculateWinLossStats (some [⟨some (-20), none, none⟩])).totalLossAmount
      = some 20 := by
  norm_num [calculateWinLossStats, profitFactorOf, totalLossAmountOf, totalWinAmountOf,
    sumPnl, winsOf, lossesOf, pnlD, List.filter, List.foldl]

/-!  ## Claim C2 (amended part) -/

/-- C2 (amended): `winRate` always lies in [0,100], and it is 0 exactly
when there are no winning positions (`wins = 0`); an empty input
(`totalResolved = 0`) forces `winRate = 0`, but `winRate` can also be 0
with `totalResolved > 0` (an input with losses only). -/
theorem c2_winRate_bounds_amended (ocps : Option (List ClosedPosition)) :
    0 ≤ (calculateWinLossStats ocps).winRate ∧
    (calculateWinLossStats ocps).winRate ≤ 100 ∧
    ((calculateWinLossStats ocps).winRate = 0 ↔ (calculateWinLossStats ocps).wins = 0) ∧
    ((calculateWinLossStats ocps).totalResolved = 0 →
      (calculateWinLossStats ocps).winRate = 0) := by
  rcases ocps with _ | cps
  · norm_num [calculateWinLossStats, emptyWinLossStats]
  by_cases hc : cps = []
  · subst hc
    norm_num [calculateWinLossStats, emptyWinLossStats]
  rw [wls_spec cps hc]
  have hn : 0 < cps.length := List.length_pos.mpr hc
  have hw : (winsOf cps).length ≤ cps.length := List.length_filter_le _ _
  have hn2 : (0 : ℚ) < (cps.length : ℚ) := by exact_mod_cast hn
  have hw2 : ((winsOf cps).length : ℚ) ≤ (cps.length : ℚ) := by exact_mod_cast hw
  dsimp only
  rw [if_pos hn]
  have hrate : (((winsOf cps).length : ℚ) / (cps.length : ℚ)) * 100 = 0
      ↔ ((winsOf cps).length : ℚ) = 0 := by
    rw [mul_eq_zero, div_eq_zero_iff]
    simp [hn2.ne']
  refine ⟨by positivity, ?_, ?_, ?_⟩
  · have hdiv : ((winsOf cps).length : ℚ) / (cps.length : ℚ) ≤ 1 :=
      (div_le_one hn2).mpr hw2
    linarith
  · rw [hrate, Nat.cast_eq_zero]
  · intro h0
    exact absurd h0 hn.ne'

/-- C2 (witness): the amended theorem applied to the empty input, where
the `totalResolved = 0` hypothesis of its last component holds. -/
theorem c2_winRate_bounds_amended_witness :
    (calculateWinLossStats (some ([] : List ClosedPosition))).winRate = 0 :=
  (c2_winRate_bounds_amended (some [])).2.2.2
    (by norm_num [calculateWinLossStats, emptyWinLossStats])

/-!  ## Claim C3 (amended part) -/

/-- C3 (amended): `profitFactor` is the infinite marker iff
`totalLossAmount = 0` while `totalWinAmount > 0` (as the claim states),
but it equals 0 iff `totalWinAmount = 0` alone — a loss-only input has
`profitFactor = 0` with `totalLossAmount > 0`.  On non-empty input the
output fields carry exactly the two accumulated amounts. -/
theorem c3_profitFactor_amended (cps : List ClosedPosition) :
    ((calculateWinLossStats (some cps)).profitFactor = ProfitFactor.infinite
        ↔ totalLossAmountOf cps = 0 ∧ 0 < totalWinAmountOf cps) ∧
    ((calculateWinLossStats (some cps)).profitFactor = ProfitFactor.finite 0
        ↔ totalWinAmountOf cps = 0) ∧
    (cps ≠ [] →
      (calculateWinLossStats (some cps)).totalWinAmount = some (totalWinAmountOf cps) ∧
      (calculateWinLossStats (some cps)).totalLossAmount = some (totalLossAmountOf cps)) := by
  have hW : 0 ≤ totalWinAmountOf cps := totalWinAmountOf_nonneg cps
  have hL : 0 ≤ totalLossAmountOf cps := totalLossAmountOf_nonneg cps
  by_cases hc : cps = []
  · subst hc
    norm_num [calculateWinLossStats, emptyWinLossStats, totalWinAmountOf,
      totalLossAmountOf, sumPnl, winsOf, lossesOf, List.filter]
    simp
  rw [wls_spec cps hc]
  dsimp only
  refine ⟨?_, ?_, fun _ => ⟨rfl, rfl⟩⟩ <;> rw [profitFactorOf] <;> split_ifs with h1 h2
  · exact iff_of_false (by simp) fun hx => absurd hx.1 h1.ne'
  · have hL0 : totalLossAmountOf cps = 0 := le_antisymm (not_lt.mp h1) hL
    exact iff_of_true rfl ⟨hL0, h2⟩
  · have hW0 : totalWinAmountOf cps = 0 := le_antisymm (not_lt.mp h2) hW
    exact iff_of_false (by simp) fun hx => absurd hx.2 (by simp [hW0])
  · simp [ProfitFactor.finite.injEq, div_eq_zero_iff, h1.ne']
  · have hW0 : 0 < totalWinAmountOf cps := h2
    exact iff_of_false (by simp) hW0.ne'
  · have hW0 : totalWinAmountOf cps = 0 := le_antisymm (not_lt.mp h2) hW
    exact iff_of_true rfl hW0

/-- C3 (witness): the amended theorem applied to a loss-only input,
discharging its non-emptiness hypothesis there. -/
theorem c3_profitFactor_amended_witness :
    (calculateWinLossStats (some [⟨some (-20), none, none⟩])).totalWinAmount
      = some (totalWinAmountOf [⟨some (-20), none, none⟩]) ∧
    (calculateWinLossStats (some [⟨some (-20), none, none⟩])).profitFactor
      = ProfitFactor.finite 0 :=
  ⟨((c3_profitFactor_amended [⟨some (-20), none, none⟩]).2.2 (by simp)).1,
   (c3_profitFactor_amended [⟨some (-20), none, none⟩]).2.1.mpr
     (by norm_num [totalWinAmountOf, sumPnl, winsOf, pnlD, List.filter])⟩

/-!  ## Claim C4 -/

/-- C4: on a non-empty input the wins/losses/breakeven counts (strict
sign partition of `realizedPnl`, defaulting missing values to 0) sum
exactly to `totalResolved`, which is the input length. -/
theorem c4_partition_counts (cps : List ClosedPosition) (h : cps ≠ []) :
    (calculateWinLossStats (some cps)).wins + (calculateWinLossStats (some cps)).losses
        + ((calculateWinLossStats (some cps)).breakeven).getD 0
      = (calculateWinLossStats (some cps)).totalResolved ∧
    (calculateWinLossStats (some cps)).totalResolved = cps.length ∧
    (calculateWinLossStats (some cps)).breakeven = some (breakevenOf cps).length := by
  rw [wls_spec cps h]
  exact ⟨partition_lengths cps, rfl, rfl⟩

/-- C4 (witness): the partition identity evaluated on a concrete
two-position input. -/
theorem c4_partition_counts_witness :
    (calculateWinLossStats (some [⟨some 5, none, none⟩, ⟨none, none, none⟩])).wins
        + (calculateWinLossStats (some [⟨some 5, none, none⟩, ⟨none, none, none⟩])).losses
        + ((calculateWinLossStats
            (some [⟨some 5, none, none⟩, ⟨none, none, none⟩])).breakeven).getD 0
      = (calculateWinLossStats
          (some [⟨some 5, none, none⟩, ⟨none, none, none⟩])).totalResolved :=
  (c4_partition_counts [⟨some 5, none, none⟩, ⟨none, none, none⟩] (by simp)).1

/-!  ## Claim C5 -/

theorem priceRangeLabel_count (q : ℚ) :
    (initRanges.map Prod.fst).count (priceRangeLabel q) = 1 := by
  rw [priceRangeLabel]
  split_ifs <;> decide

theorem foldRange_count_sum (cps : List ClosedPosition) :
    ∀ m : List (String × Bucket), m.map Prod.fst = initRanges.map Prod.fst →
      ((cps.foldl stepRange m).map fun kv => kv.2.count).sum
        = ((m.map fun kv => kv.2.count).sum) + cps.length := by
  induction cps with
  | nil => intro m _; simp
  | cons p t ih =>
    intro m hm
    rw [List.foldl_cons]
    have hkeys : (stepRange m p).map Prod.fst = initRanges.map Prod.fst := by
      rw [stepRange, updateAt_keys, hm]
    rw [ih (stepRange m p) hkeys, stepRange,
      updateAt_sum (fun b => b.count) (accPos p) (fun _ => rfl) m _, hm,
      priceRangeLabel_count]
    simp [List.length_cons]
    omega

/-- C5: the five fixed price buckets partition every input exactly — the
counts over the output of `calculateWinLossByPriceRange` always sum to the
input length — and each boundary value 0.20 / 0.40 / 0.60 / 0.80 of
`avgPrice` is assigned to the lower band (0.20 lands in the lowest
bucket). -/
theorem c5_priceRange_partition (cps : List ClosedPosition) :
    (((calculateWinLossByPriceRange cps).map fun kv => kv.2.count).sum
        = cps.length) ∧
    priceRangeLabel 0.20 = "Longshots (0-20¢)" ∧
    priceRangeLabel 0.40 = "Underdogs (20-40¢)" ∧
    priceRangeLabel 0.60 = "Toss-ups (40-60¢)" ∧
    priceRangeLabel 0.80 = "Favorites (60-80¢)" := by
  refine ⟨?_, ?_, ?_, ?_, ?_⟩
  · rw [calculateWinLossByPriceRange]
    have hpass :
        (((cps.foldl stepRange initRanges).map fun kv => (kv.1, setWinRate kv.2)).map
            fun kv => kv.2.count)
          = (cps.foldl stepRange initRanges).map fun kv => kv.2.count := by
      rw [List.map_map]
      rfl
    rw [hpass, foldRange_count_sum cps initRanges rfl]
    norm_num [initRanges]
  · norm_num [priceRangeLabel]
  · norm_num [priceRangeLabel]
  · norm_num [priceRangeLabel]
  · norm_num [priceRangeLabel]

/-!  ## Claim C7 -/

theorem accPos_inv {p : ClosedPosition} {b : Bucket}
    (hb : b.wins + b.losses ≤ b.count) :
    (accPos p b).wins + (accPos p b).losses ≤ (accPos p b).count := by
  rw [accPos]
  rcases lt_trichotomy (pnlD p) 0 with h | h | h
  · simp [h, lt_asymm h]
    omega
  · simp [h]
    omega
  · simp [h, lt_asymm h]
    omega

theorem mem_updateAt {β : Type} {m : List (String × β)} {k : String} {f : β → β}
    {kv : String × β} (h : kv ∈ updateAt m k f) :
    ∃ kv0, kv0 ∈ m ∧ (kv = kv0 ∨ kv = (kv0.1, f kv0.2)) := by
  rw [updateAt] at h
  rcases List.mem_map.mp h with ⟨kv0, h0, he⟩
  refine ⟨kv0, h0, ?_⟩
  by_cases hk : kv0.1 = k
  · right
    rw [← he, if_pos hk]
  · left
    rw [← he, if_neg hk]

theorem stepCat_inv {m : List (String × Bucket)} {p : ClosedPosition}
    (hm : ∀ kv ∈ m, kv.2.wins + kv.2.losses ≤ kv.2.count) :
    ∀ kv ∈ stepCat m p, kv.2.wins + kv.2.losses ≤ kv.2.count := by
  intro kv hkv
  simp only [stepCat] at hkv
  rcases mem_updateAt hkv with ⟨kv0, h0, he⟩
  have h0inv : kv0.2.wins + kv0.2.losses ≤ kv0.2.count := by
    by_cases hany :
        m.any (fun kv => decide (kv.1 = categoryOfTitle (p.title.getD ("")))) = true
    · rw [if_pos hany] at h0
      exact hm kv0 h0
    · rw [if_neg hany] at h0
      rcases List.mem_append.mp h0 with h0m | h0z
      · exact hm kv0 h0m
      · simp at h0z
        rw [h0z]
        exact Nat.le_refl 0
  rcases he with rfl | rfl
  · exact h0inv
  · exact accPos_inv h0inv

theorem foldCat_inv (cps : List ClosedPosition) :
    ∀ m : List (String × Bucket),
      (∀ kv ∈ m, kv.2.wins + kv.2.losses ≤ kv.2.count) →
      ∀ kv ∈ cps.foldl stepCat m, kv.2.wins + kv.2.losses ≤ kv.2.count := by
  induction cps with
  | nil => intro m hm; simpa using hm
  | cons p t ih =>
    intro m hm
    rw [List.foldl_cons]
    exact ih (stepCat m p) (stepCat_inv hm)

/-- C7: every category bucket satisfies `wins + losses ≤ count`
(breakeven positions are counted but neither won nor lost), and its
stored `winRate` is exactly the value recomputed from its own `wins` and
`count` (`wins/count*100` when `count > 0`, else 0). -/
theorem c7_category_bucket_invariant (cps : List ClosedPosition)
    (kv : String × Bucket) (h : kv ∈ calculateWinLossByCategory cps) :
    kv.2.wins + kv.2.losses ≤ kv.2.count ∧
    kv.2.winRate
      = if 0 < kv.2.count then ((kv.2.wins : ℚ) / (kv.2.count : ℚ)) * 100 else 0 := by
  rw [calculateWinLossByCategory] at h
  rcases List.mem_map.mp h with ⟨kv0, h0, he⟩
  have h0inv := foldCat_inv cps [] (by simp) kv0 h0
  rw [← he]
  exact ⟨h0inv, rfl⟩

/-- C7 (witness): the invariant read off the single bucket produced by a
one-position input (its membership hypothesis discharged by
evaluation). -/
theorem c7_category_bucket_invariant_witness :
    (⟨1, 0, 5, 1, 100⟩ : Bucket).wins + (⟨1, 0, 5, 1, 100⟩ : Bucket).losses
        ≤ (⟨1, 0, 5, 1, 100⟩ : Bucket).count ∧
    (⟨1, 0, 5, 1, 100⟩ : Bucket).winRate
      = if 0 < (⟨1, 0, 5, 1, 100⟩ : Bucket).count then
          (((⟨1, 0, 5, 1, 100⟩ : Bucket).wins : ℚ)
            / ((⟨1, 0, 5, 1, 100⟩ : Bucket).count : ℚ)) * 100
        else 0 :=
  c7_category_bucket_invariant [⟨some 5, none, none⟩] ("Other", ⟨1, 0, 5, 1, 100⟩)
    (by
      have hcat : categoryOfTitle ("") = "Other" := by decide
      norm_num [calculateWinLossByCategory, stepCat, hcat, updateAt, accPos,
        setWinRate, pnlD, List.foldl])

/-!  ## Claim C9 -/

theorem combineW_step (a b : ClosedPosition) (r : Option ClosedPosition) :
    combineW (if pnlD a < pnlD b then b else a) r = combineW a (combineW b r) := by
  rcases r with _ | q
  · simp only [combineW]
    split_ifs <;> rfl
  · by_cases hab : pnlD a < pnlD b
    · by_cases hbq : pnlD b < pnlD q
      · simp [combineW, hab, hbq, hab.trans hbq]
      · simp [combineW, hab, hbq]
    · by_cases hbq : pnlD b < pnlD q
      · simp [combineW, hab, hbq]
      · have haq : ¬ pnlD a < pnlD q := by
          push_neg at hab hbq ⊢
          exact hbq.trans hab
        simp [combineW, hab, hbq, haq]

theorem foldl_max_spec (l : List ClosedPosition) (a : ClosedPosition) :
    some (l.foldl (fun mx p => if pnlD mx < pnlD p then p else mx) a)
      = specBiggestWin (a :: l) := by
  induction l generalizing a with
  | nil => rfl
  | cons b t ih =>
    rw [List.foldl_cons]
    have step : specBiggestWin ((if pnlD a < pnlD b then b else a) :: t)
        = specBiggestWin (a :: b :: t) := by
      show combineW _ (specBiggestWin t) = combineW a (combineW b (specBiggestWin t))
      exact combineW_step a b (specBiggestWin t)
    rw [← step]
    exact ih (if pnlD a < pnlD b then b else a)

theorem combineL_step (a b : ClosedPosition) (r : Option ClosedPosition) :
    combineL (if pnlD b < pnlD a then b else a) r = combineL a (combineL b r) := by
  rcases r with _ | q
  · simp only [combineL]
    split_ifs <;> rfl
  · by_cases hab : pnlD b < pnlD a
    · by_cases hbq : pnlD q < pnlD b
      · simp [combineL, hab, hbq, hbq.trans hab]
      · simp [combineL, hab, hbq]
    · by_cases hbq : pnlD q < pnlD b
      · simp [combineL, hab, hbq]
      · have haq : ¬ pnlD q < pnlD a := by
          push_neg at hab hbq ⊢
          exact hab.trans hbq
        simp [combineL, hab, hbq, haq]

theorem foldl_min_spec (l : List ClosedPosition) (a : ClosedPosition) :
    some (l.foldl (fun mn p => if pnlD p < pnlD mn then p else mn) a)
      = specBiggestLoss (a :: l) := by
  induction l generalizing a with
  | nil => rfl
  | cons b t ih =>
    rw [List.foldl_cons]
    have step : specBiggestLoss ((if pnlD b < pnlD a then b else a) :: t)
        = specBiggestLoss (a :: b :: t) := by
      show combineL _ (specBiggestLoss t) = combineL a (combineL b (specBiggestLoss t))
      exact combineL_step a b (specBiggestLoss t)
    rw [← step]
    exact ih (if pnlD b < pnlD a then b else a)

theorem biggestWinOf_eq_spec (cps : List ClosedPosition) :
    biggestWinOf cps = specBiggestWin (winsOf cps) := by
  rw [biggestWinOf]
  cases hw : winsOf cps with
  | nil => rfl
  | cons w0 ws =>
    show some ((w0 :: ws).foldl (fun mx p => if pnlD mx < pnlD p then p else mx) w0)
      = specBiggestWin (w0 :: ws)
    rw [List.foldl_cons, if_neg (lt_irrefl (pnlD w0))]
    exact foldl_max_spec ws w0

theorem biggestLossOf_eq_spec (cps : List ClosedPosition) :
    biggestLossOf cps = specBiggestLoss (lossesOf cps) := by
  rw [biggestLossOf]
  cases hw : lossesOf cps with
  | nil => rfl
  | cons l0 ls =>
    show some ((l0 :: ls).foldl (fun mn p => if pnlD p < pnlD mn then p else mn) l0)
      = specBiggestLoss (l0 :: ls)
    rw [List.foldl_cons, if_neg (lt_irrefl (pnlD l0))]
    exact foldl_min_spec ls l0

theorem specBiggestWin_eq_none_iff (l : List ClosedPosition) :
    specBiggestWin l = none ↔ l = [] := by
  cases l with
  | nil => simp [specBiggestWin]
  | cons p t =>
    show combineW p (specBiggestWin t) = none ↔ p :: t = []
    cases specBiggestWin t
    · simp [combineW]
    · simp only [combineW]
      split_ifs <;> simp

theorem specBiggestLoss_eq_none_iff (l : List ClosedPosition) :
    specBiggestLoss l = none ↔ l = [] := by
  cases l with
  | nil => simp [specBiggestLoss]
  | cons p t =>
    show combineL p (specBiggestLoss t) = none ↔ p :: t = []
    cases specBiggestLoss t
    · simp [combineL]
    · simp only [combineL]
      split_ifs <;> simp

/-- C9: `biggestWin` equals the spec-side first maximum of the wins
partition (maximal `realizedPnl`, ties to the first in input order) and
`biggestLoss` the spec-side first minimum of the losses partition, and
each is `null` exactly when its partition is empty. -/
theorem c9_biggest_extremes (cps : List ClosedPosition) :
    (calculateWinLossStats (some cps)).biggestWin = specBiggestWin (winsOf cps) ∧
    (calculateWinLossStats (some cps)).biggestLoss = specBiggestLoss (lossesOf cps) ∧
    ((calculateWinLossStats (some cps)).biggestWin = none ↔ winsOf cps = []) ∧
    ((calculateWinLossStats (some cps)).biggestLoss = none ↔ lossesOf cps = []) := by
  by_cases hc : cps = []
  · subst hc
    have hw : winsOf ([] : List ClosedPosition) = [] := rfl
    have hl : lossesOf ([] : List ClosedPosition) = [] := rfl
    rw [hw, hl]
    exact ⟨rfl, rfl, by simp [calculateWinLossStats, emptyWinLossStats, specBiggestWin],
      by simp [calculateWinLossStats, emptyWinLossStats, specBiggestLoss]⟩
  rw [wls_spec cps hc]
  dsimp only
  rw [biggestWinOf_eq_spec, biggestLossOf_eq_spec]
  exact ⟨rfl, rfl, specBiggestWin_eq_none_iff _, specBiggestLoss_eq_none_iff _⟩

/-- C9 (witness): on a concrete input whose wins partition has a tie, the
claim theorem yields the first maximal win and, through its emptiness
component, the absence of a biggest loss. -/
theorem c9_biggest_extremes_witness :
    (calculateWinLossStats (some
        [⟨some 7, some 0.5, some ("A")⟩, ⟨some 7, some 0.6, some ("B")⟩])).biggestWin
      = some ⟨some 7, some 0.5, some ("A")⟩ ∧
    (calculateWinLossStats (some
        [⟨some 7, some 0.5, some ("A")⟩, ⟨some 7, some 0.6, some ("B")⟩])).biggestLoss
      = none :=
  ⟨(c9_biggest_extremes
      [⟨some 7, some 0.5, some ("A")⟩, ⟨some 7, some 0.6, some ("B")⟩]).1.trans
    (by norm_num [winsOf, pnlD, List.filter, specBiggestWin, combineW]),
   (c9_biggest_extremes
      [⟨some 7, some 0.5, some ("A")⟩, ⟨some 7, some 0.6, some ("B")⟩]).2.2.2.mpr
    (by norm_num [lossesOf, pnlD, List.filter])⟩

/-!  ## Claim C8 -/

/-- C8: `buys`/`sells` are the side counts over the (re-filtered) trades,
and the ratio value is the exact quotient when `sells > 0`, the infinite
marker exactly when `sells = 0` with `buys > 0`, and the no-ratio marker
exactly when both counts are 0. -/
theorem c8_buySellRatio_cases (activity : List TradeRecord) :
    (calculateStats activity).buys
      = ((activity.filter fun a => decide (a.type = "TRADE")).filter
          fun t => decide (t.side = "BUY")).length ∧
    (calculateStats activity).sells
      = ((activity.filter fun a => decide (a.type = "TRADE")).filter
          fun t => decide (t.side = "SELL")).length ∧
    (Stats.buySellRatioVal (calculateStats activity) = RatioMark.infiniteMark
      ↔ (calculateStats activity).sells = 0 ∧ 0 < (calculateStats activity).buys) ∧
    (Stats.buySellRatioVal (calculateStats activity) = RatioMark.dashMark
      ↔ (calculateStats activity).buys = 0 ∧ (calculateStats activity).sells = 0) ∧
    (0 < (calculateStats activity).sells →
      Stats.buySellRatioVal (calculateStats activity)
        = RatioMark.finite (((calculateStats activity).buys : ℚ)
            / ((calculateStats activity).sells : ℚ))) := by
  rw [calculateStats]
  dsimp only
  refine ⟨rfl, rfl, ?_, ?_, ?_⟩
  · split_ifs with h1 h2
    · exact iff_of_false (by simp) fun hx => by omega
    · exact iff_of_true rfl ⟨by omega, h2⟩
    · exact iff_of_false (by simp) fun hx => by omega
  · split_ifs with h1 h2
    · exact iff_of_false (by simp) fun hx => by omega
    · exact iff_of_false (by simp) fun hx => by omega
    · exact iff_of_true rfl ⟨by omega, by omega⟩
  · intro hs
    rw [if_pos hs]

/-- C8 (witness): a single BUY trade makes the ratio the infinite marker,
via the claim theorem with its case hypotheses discharged there. -/
theorem c8_buySellRatio_cases_witness :
    Stats.buySellRatioVal
        (calculateStats [⟨"TRADE", "BUY", 0, none, 0.5, "c1", none⟩])
      = RatioMark.infiniteMark :=
  (c8_buySellRatio_cases [⟨"TRADE", "BUY", 0, none, 0.5, "c1", none⟩]).2.2.1.mpr
    (by simp [calculateStats, List.filter])

/-!  ## Claim C10 -/

theorem bumpAt_length (l : List ℕ) (i : ℕ) : (bumpAt l i).length = l.length := by
  induction l generalizing i with
  | nil => rfl
  | cons x t ih =>
    cases i with
    | zero => rfl
    | succ n => simp [bumpAt, ih]

theorem bumpAt_sum (l : List ℕ) (i : ℕ) (h : i < l.length) :
    (bumpAt l i).sum = l.sum + 1 := by
  induction l generalizing i with
  | nil => simp at h
  | cons x t ih =>
    cases i with
    | zero =>
      simp [bumpAt]
      omega
    | succ n =>
      have ht := ih n (by simpa using h)
      simp [bumpAt, List.sum_cons, ht]
      omega

theorem hourOfTs_lt (ts : ℤ) : hourOfTs ts < 24 := by
  rw [hourOfTs]
  have h1 : 0 ≤ (ts.fdiv 3600).emod 24 := Int.emod_nonneg _ (by norm_num)
  have h2 : (ts.fdiv 3600).emod 24 < 24 := Int.emod_lt_of_pos _ (by norm_num)
  omega

theorem foldHours (trades : List TradeRecord) :
    ∀ hours : List ℕ, hours.length = 24 →
      (trades.foldl (fun hs t => bumpAt hs (hourOfTs t.timestamp)) hours).sum
          = hours.sum + trades.length := by
  induction trades with
  | nil => intro hours _; simp
  | cons t ts ih =>
    intro hours hlen
    rw [List.foldl_cons]
    have hlen2 : (bumpAt hours (hourOfTs t.timestamp)).length = 24 := by
      rw [bumpAt_length, hlen]
    rw [ih _ hlen2, bumpAt_sum hours _ (by rw [hlen]; exact hourOfTs_lt _)]
    simp [List.length_cons]
    omega

theorem dayOfTs_lt (ts : ℤ) : dayOfTs ts < 7 := by
  rw [dayOfTs]
  have h1 : 0 ≤ (ts.fdiv 86400 + 4).emod 7 := Int.emod_nonneg _ (by norm_num)
  have h2 : (ts.fdiv 86400 + 4).emod 7 < 7 := Int.emod_lt_of_pos _ (by norm_num)
  omega

theorem dayNames_count (i : ℕ) (h : i < 7) :
    dayNames.count (dayNames.getD i ("")) = 1 := by
  have hall : ∀ j : ℕ, j < 7 → dayNames.count (dayNames.getD j ("")) = 1 := by decide
  exact hall i h

theorem foldDays (trades : List TradeRecord) :
    ∀ m : List (String × ℕ), m.map Prod.fst = dayNames →
      ((trades.foldl
          (fun days t =>
            updateAt days (dayNames.getD (dayOfTs t.timestamp) "") (· + 1)) m).map
          fun kv => kv.2).sum
        = ((m.map fun kv => kv.2).sum) + trades.length := by
  induction trades with
  | nil => intro m _; simp
  | cons t ts ih =>
    intro m hm
    rw [List.foldl_cons]
    have hkeys :
        (updateAt m (dayNames.getD (dayOfTs t.timestamp) "") (· + 1)).map Prod.fst
          = dayNames := by
      rw [updateAt_keys, hm]
    rw [ih _ hkeys,
      updateAt_sum (fun n => n) (· + 1) (fun _ => rfl) m _, hm,
      dayNames_count _ (dayOfTs_lt _)]
    simp [List.length_cons]
    omega

/-- C10: both temporal distributions conserve the trade count — the 24
hour counters and the seven weekday counters each sum to `totalTrades`. -/
theorem c10_distributions_conserve (activity : List TradeRecord) :
    (calculateStats activity).hourDistribution.sum
        = (calculateStats activity).totalTrades ∧
    ((calculateStats activity).dayDistribution.map fun kv => kv.2).sum
      = (calculateStats activity).totalTrades := by
  rw [calculateStats]
  dsimp only
  constructor
  · rw [getHourDistribution, foldHours _ (List.replicate 24 0) (by simp)]
    simp
  · rw [getDayDistribution, foldDays _ (dayNames.map fun n => (n, 0)) (by decide)]
    have hseed : (((dayNames.map fun n => (n, 0)).map fun kv => kv.2).sum) = 0 := by
      decide
    rw [hseed]
    omega

end BeliefMirror
